import Mathlib

/-!
Shallow embedding of the HealthReference evidence-grounded extraction
pipeline: the Groq model gateway (`src/lib/services/aiProvider.ts`), the
provenance validator inside `analyzeHealthPapers`
(`src/lib/services/aiService.ts`), the language simplifier
(`languageSimplifier.ts`), and the condition-query derivation shared by
`aiService.ts` and `src/app/api/analyze/route.ts`.  Model calls and JSON
parsing are abstracted as function parameters; everything downstream of
them is translated directly from the TypeScript source.
-/

namespace HealthRef

/-! ## Basic string helpers (JS string semantics over `List Char`) -/

/-- Whitespace test used for JS `\s`, `trim()` and friends. -/
def isSpaceChar (c : Char) : Bool := c.isWhitespace

/-- Character-wise lowercase of a char list (JS `toLowerCase` on ASCII). -/
def lowerChars (l : List Char) : List Char := l.map Char.toLower

/-- Lowercase of a string, via its character list. -/
def lowerStr (s : String) : String := String.mk (lowerChars s.toList)

/-- JS `trim()`: drop whitespace from both ends. -/
def trimChars (l : List Char) : List Char :=
  ((l.dropWhile isSpaceChar).reverse.dropWhile isSpaceChar).reverse

/-- JS `s.toLowerCase().trim()`. -/
def lowerTrim (s : String) : String := String.mk (trimChars (lowerChars s.toList))

/-- Prefix test over char lists: `leadsList needle hay` holds when `needle`
is an initial segment of `hay`. -/
def leadsList : List Char → List Char → Bool
  | [], _ => true
  | _ :: _, [] => false
  | c :: cs, h :: t => c = h && leadsList cs t

/-- Contiguous-sublist test: `hasSubList hay needle` holds when `needle`
occurs somewhere inside `hay`. -/
def hasSubList : List Char → List Char → Bool
  | [], needle => needle.isEmpty
  | c :: t, needle => leadsList needle (c :: t) || hasSubList t needle

/-- JS `hay.includes(needle)`: substring containment. -/
def containsStr (hay needle : String) : Bool :=
  hasSubList hay.toList needle.toList

/-- Truthiness of an optional JS string: present and non-empty. -/
def isTruthy (o : Option String) : Bool :=
  match o with
  | some s => s ≠ ""
  | none => false

/-! ## ModelGateway: `generateWithGroq` (`src/lib/services/aiProvider.ts` 59-169) -/

/-- JS error `code` values compared against both `429` and
`'rate_limit_exceeded'`. -/
inductive GCode where
  | num (n : Nat)
  | str (s : String)
deriving DecidableEq

/-- Shape of a thrown backend error, with the fields the gateway inspects
(`error.message`, `error.status`, `error.response.status`,
`error.statusCode`, `error.code`, `error.response.data.error.code`). -/
structure GroqError where
  message : Option String
  status : Option Nat
  responseStatus : Option Nat
  statusCode : Option Nat
  code : Option GCode
  responseDataErrorCode : Option GCode
deriving DecidableEq

/-- JS `a || b` over optional numbers, where `0` is falsy. -/
def jsOrNat (a b : Option Nat) : Option Nat :=
  match a with
  | some n => if n = 0 then b else some n
  | none => b

/-- Falsiness of a JS `code` value: `0` and `''` are falsy. -/
def gcodeFalsy : Option GCode → Bool
  | some (.num n) => n = 0
  | some (.str s) => s = ""
  | none => true

/-- JS `a || b` over optional `code` values. -/
def jsOrCode (a b : Option GCode) : Option GCode :=
  if gcodeFalsy a then b else a

/-- `error?.message?.toLowerCase() || ''` (line 102). -/
def errorMessage (e : GroqError) : String :=
  match e.message with
  | some m => lowerStr m
  | none => ""

/-- `error?.status || error?.response?.status || error?.statusCode` (line 103). -/
def errorStatus (e : GroqError) : Option Nat :=
  jsOrNat e.status (jsOrNat e.responseStatus e.statusCode)

/-- `error?.code || error?.response?.data?.error?.code` (line 104). -/
def errorCode (e : GroqError) : Option GCode :=
  jsOrCode e.code e.responseDataErrorCode

/-- Rate-limit classification (lines 106-114). -/
def isRateLimit (e : GroqError) : Bool :=
  let msg := errorMessage e
  errorStatus e = some 429 ||
  errorCode e = some (.num 429) ||
  errorCode e = some (.str "rate_limit_exceeded") ||
  containsStr msg "429" ||
  containsStr msg "rate limit" ||
  containsStr msg "too many requests" ||
  containsStr msg "quota" ||
  containsStr msg "rate_limit"

/-- Model-unavailable classification (lines 135-141). -/
def isModelError (e : GroqError) : Bool :=
  let msg := errorMessage e
  containsStr msg "model" &&
  (containsStr msg "not found" ||
   containsStr msg "invalid" ||
   containsStr msg "decommissioned" ||
   containsStr msg "not available" ||
   containsStr msg "does not exist")

/-- Billing-or-quota classification (lines 144-148). -/
def isQuotaError (e : GroqError) : Bool :=
  let msg := errorMessage e
  containsStr msg "quota" ||
  containsStr msg "billing" ||
  containsStr msg "payment" ||
  containsStr msg "subscription"

/-- Fixed fallback model list (lines 76-81), before removing the primary. -/
def fallbackModels : List String :=
  ["llama-3.3-70b-versatile",
   "openai/gpt-oss-120b",
   "meta-llama/llama-4-scout-17b-16e-instruct",
   "llama-3.1-8b-instant"]

/-- `[primaryModel, ...fallbackModels.filter(m => m !== primaryModel)]`
(lines 73-83). -/
def modelsToTry (primary : String) : List String :=
  primary :: fallbackModels.filter (fun m => m ≠ primary)

/-- Failure outcomes of the Groq loop: the distinguished all-rate-limited
error (line 127), an original error rethrown unchanged (line 163), and the
unreachable fallthrough (line 168). -/
inductive GroqFailure where
  | allRateLimited (models : List String)
  | original (e : GroqError)
  | exhaustedFallthrough
deriving DecidableEq

/-- `Array.prototype.join(sep)` over char lists. -/
def joinSep (sep : List Char) : List (List Char) → List Char
  | [] => []
  | [x] => x
  | x :: y :: xs => x ++ sep ++ joinSep sep (y :: xs)

/-- `rateLimitedModels.join(', ')` as a string. -/
def joinComma (ms : List String) : String :=
  String.mk (joinSep ", ".toList (ms.map String.toList))

/-- Message carried by each failure outcome (lines 127, 163, 168). -/
def failureMessage : GroqFailure → String
  | .allRateLimited ms =>
      "Rate limit reached for all Groq models (" ++ joinComma ms ++
      "). Please try again later."
  | .original e => (e.message).getD ""
  | .exhaustedFallthrough => "Failed to generate response with any model"

/-- The `for` loop of `generateWithGroq` (lines 86-166).  `call` is the
oracle for `groqClient.chat.completions.create` per model; `rl` is the
`rateLimitedModels` accumulator.  Returns the list of models attempted, in
order, together with the outcome. -/
def groqLoop (call : String → Except GroqError String) :
    List String → List String → List String × Except GroqFailure String
  | _, [] => ([], .error .exhaustedFallthrough)
  | rl, m :: rest =>
    match call m with
    | .ok s => ([m], .ok s)
    | .error e =>
      if isRateLimit e then
        -- lines 116-128
        if rest.isEmpty then
          ([m], .error (.allRateLimited (rl ++ [m])))
        else
          let r := groqLoop call (rl ++ [m]) rest
          (m :: r.1, r.2)
      else
        -- lines 129-163
        if (isModelError e || isQuotaError e) && !rest.isEmpty then
          let r := groqLoop call rl rest
          (m :: r.1, r.2)
        else if !rest.isEmpty then
          let r := groqLoop call rl rest
          (m :: r.1, r.2)
        else
          ([m], .error (.original e))

/-- `generateWithGroq` (lines 59-169), abstracted over the primary model
(the `GROQ_MODEL` environment override, line 73) and the per-model call
outcome. -/
def generateWithGroq (primary : String) (call : String → Except GroqError String) :
    List String × Except GroqFailure String :=
  groqLoop call [] (modelsToTry primary)

/-! ## Simplifier: `languageSimplifier.ts` -/

/-- One glossary entry (`{term, explanation}`). -/
structure TechTerm where
  term : String
  explanation : String
deriving DecidableEq

/-- `SimplifiedText` (`languageSimplifier.ts` 3-10), with `technicalTerms`
already defaulted to a list as the producing code does. -/
structure SimplifiedText where
  original : String
  simplified : String
  technicalTerms : List TechTerm
deriving DecidableEq

/-- Row `i` of the Levenshtein DP matrix from row `i-1` (the inner `for j`
loop of `levenshteinDistance`, lines 52-64): walks `str1` carrying the
remaining previous row (`matrix[i-1][j-1], matrix[i-1][j], ...`) and the
value just computed (`matrix[i][j-1]`). -/
def levRowAux (c2 : Char) : List Char → List Nat → Nat → List Nat
  | [], _, _ => []
  | _ :: _, [], _ => []
  | c1 :: rest, pPrev :: pRest, cur =>
    let diag := pPrev
    let up := pRest.headD 0
    let v := if c2 = c1 then diag else min (diag + 1) (min (cur + 1) (up + 1))
    v :: levRowAux c2 rest pRest v

/-- Full row `i` including the `matrix[i][0] = i` seed (lines 46-48). -/
def levRow (c2 : Char) (str1 : List Char) (prev : List Nat) (i : Nat) : List Nat :=
  i :: levRowAux c2 str1 prev i

/-- `levenshteinDistance(str1, str2)` (lines 44-66): the DP over rows
indexed by `str2`, returning `matrix[str2.length][str1.length]`. -/
def levenshteinDistance (str1 str2 : List Char) : Nat :=
  let row0 := List.range (str1.length + 1)
  let final :=
    (str2.foldl (fun (acc : List Nat × Nat) c2 =>
      (levRow c2 str1 acc.1 (acc.2 + 1), acc.2 + 1)) (row0, 0)).1
  final.getLastD 0

/-- `calculateSimilarity(str1, str2)` (lines 32-39):
`(longer.length - distance) / longer.length` as a rational. -/
def calculateSimilarity (s1 s2 : String) : ℚ :=
  let longer := if s1.length > s2.length then s1 else s2
  let shorter := if s1.length > s2.length then s2 else s1
  if longer.length = 0 then 1
  else ((longer.length : ℚ) - (levenshteinDistance longer.toList shorter.toList : ℚ))
        / (longer.length : ℚ)

/-- `isActuallySimplified(original, simplified)` (lines 15-27). -/
def isActuallySimplified (original simplified : String) : Bool :=
  let orig := lowerTrim original
  let simp := lowerTrim simplified
  if orig = simp then false
  else if calculateSimilarity orig simp > 9 / 10 then false
  else true

/-- One input item of `simplifyMultipleTexts` (`{text, context?}`). -/
structure TextCtx where
  text : String
  context : String
deriving DecidableEq

/-- One parsed entry of the model's JSON array in `simplifyMultipleTexts`;
both fields may be missing in the parsed object. -/
structure PartialST where
  simplified : Option String
  technicalTerms : Option (List TechTerm)
deriving DecidableEq

/-- Fallback mapping used by both catch paths: original text, unchanged,
with an empty glossary (`languageSimplifier.ts` 202-206). -/
def fallbackST (t : TextCtx) : SimplifiedText :=
  { original := t.text, simplified := t.text, technicalTerms := [] }

/-- `simplifyMultipleTexts` (lines 136-208), abstracted over the combined
outcome of the model call and JSON parse.  On success the parsed array is
mapped back to the inputs by index with `||`-fallbacks (lines 195-199); on
failure every item falls back to the original (lines 202-206). -/
def simplifyMultipleTexts (texts : List TextCtx)
    (outcome : Except String (List PartialST)) : List SimplifiedText :=
  match outcome with
  | .error _ => texts.map fallbackST
  | .ok arr =>
    (List.range texts.length).filterMap (fun i =>
      (texts.get? i).map (fun t =>
        { original := t.text
          simplified :=
            match (arr.get? i).bind (fun p => p.simplified) with
            | some s => if s = "" then t.text else s
            | none => t.text
          technicalTerms :=
            match arr.get? i with
            | some p => p.technicalTerms.getD []
            | none => [] }))

/-! ## Data model of `aiService.ts` (interfaces at lines 8-59) -/

/-- `Evidence` (`aiService.ts` 33-44). -/
structure Evidence where
  paperTitle : String
  paperUrl : String
  paperId : String
  relevantSection : Option String
  quote : Option String
  doi : Option String
  sectionForExercises : Option String
  sectionForDosage : Option String
  exerciseDetailsChunk : Option String
  dosageDetailsChunk : Option String
deriving DecidableEq

/-- `HealthRecommendation` (`aiService.ts` 8-31); model-supplied drafts use
the same shape with optional fields possibly absent.  `recType` is the
`type` field (a reserved word in Lean). -/
structure Rec where
  recType : String
  name : Option String
  category : String
  mechanism : Option String
  mechanismSimplified : Option String
  summary : String
  summarySimplified : Option String
  technicalTerms : Option (List TechTerm)
  specificExercises : Option (List String)
  reps : Option String
  sets : Option String
  duration : Option String
  frequency : Option String
  dosage : Option String
  servingSize : Option String
  frequencyOfIntake : Option String
  evidence : List Evidence
deriving DecidableEq

/-- One entry of the combined `allPapers` list (`aiService.ts` 74-115). -/
structure Paper where
  id : String
  title : String
  url : String
  doi : Option String
deriving DecidableEq

/-- `BudgetOption` (`aiService.ts` 53-59). -/
structure BudgetOption where
  name : String
  description : String
  source : String
  sourceUrl : String
  cost : Option String
deriving DecidableEq

/-- Parsed shape of the model's top-level JSON object, with the `|| []`
defaults of lines 311 and 519 already applied. -/
structure ParsedAnalysis where
  mechanisms : List String
  recommendations : List Rec
deriving DecidableEq

/-- `HealthAnalysis` (`aiService.ts` 46-51). -/
structure HealthAnalysis where
  condition : String
  recommendations : List Rec
  mechanisms : List String
  budgetOptions : Option (List BudgetOption)
deriving DecidableEq

/-! ## ProvenanceValidator (`analyzeHealthPapers`, lines 311-458) -/

/-- `notSpecifiedPatterns` (line 314): each regex is an unanchored
case-insensitive pattern, so matching is substring containment. -/
def notSpecifiedPatterns : List String :=
  ["not specified", "not reported", "not mentioned", "not available",
   "n/a", "na", "unknown", "unspecified"]

/-- `notSpecifiedPatterns.some(pattern => pattern.test(value))`. -/
def matchesPlaceholder (v : String) : Bool :=
  notSpecifiedPatterns.any (fun p => containsStr (lowerStr v) p)

/-- `if (rec.field && patterns.some(p => p.test(rec.field))) delete rec.field`
(lines 316-336): the field must be truthy (present and non-empty). -/
def scrubField (o : Option String) : Option String :=
  match o with
  | some v => if v ≠ "" ∧ matchesPlaceholder v then none else some v
  | none => none

/-- Placeholder scrubbing over the seven structured fields (lines 313-336). -/
def scrubRec (r : Rec) : Rec :=
  { r with
    dosage := scrubField r.dosage
    servingSize := scrubField r.servingSize
    frequencyOfIntake := scrubField r.frequencyOfIntake
    reps := scrubField r.reps
    sets := scrubField r.sets
    duration := scrubField r.duration
    frequency := scrubField r.frequency }

/-- Evidence cleanup of the exercise branch (lines 349-353). -/
def clearExerciseEv (ev : Evidence) : Evidence :=
  { ev with sectionForExercises := none, exerciseDetailsChunk := none }

/-- Evidence cleanup of the dosage branch (lines 366-370). -/
def clearDosageEv (ev : Evidence) : Evidence :=
  { ev with sectionForDosage := none, dosageDetailsChunk := none }

/-- Chunk-gating (lines 338-372): exercise fields survive only if some
evidence item carries a truthy `exerciseDetailsChunk`; intake fields only if
some item carries a truthy `dosageDetailsChunk`. -/
def gateRec (r : Rec) : Rec :=
  let hasExerciseChunks := r.evidence.any (fun ev => isTruthy ev.exerciseDetailsChunk)
  let r1 :=
    if hasExerciseChunks then r
    else
      { r with
        specificExercises := none, reps := none, sets := none,
        duration := none, frequency := none,
        evidence := r.evidence.map clearExerciseEv }
  let hasDosageChunks := r1.evidence.any (fun ev => isTruthy ev.dosageDetailsChunk)
  if hasDosageChunks then r1
  else
    { r1 with
      dosage := none, servingSize := none, frequencyOfIntake := none,
      evidence := r1.evidence.map clearDosageEv }

/-- `singleGenericWords` (line 384). -/
def singleGenericWords : List String :=
  ["exercise", "activity", "diet", "nutrition", "food", "therapy"]

/-- Matcher for `/^<q>\s+<n>$/` patterns on the lowercased, trimmed name. -/
def matchQualNoun (q n : String) (name : List Char) : Bool :=
  leadsList q.toList name &&
    (let r := name.drop q.toList.length
     !(r.takeWhile isSpaceChar).isEmpty && r.dropWhile isSpaceChar == n.toList)

/-- `genericPatterns` (lines 390-398), applied to the lowercased name:
intensity-qualifier patterns, `exercise (general)`, any `... (general)`
suffix, and dietary/nutritional intervention(s). -/
def genericNameMatch (name : List Char) : Bool :=
  (["submaximal", "therapeutic", "general", "moderate", "intensive"].any fun q =>
    ["exercise", "activity", "diet", "nutrition"].any fun n =>
      matchQualNoun q n name) ||
  (leadsList "exercise".toList name &&
    (name.drop 8).dropWhile isSpaceChar == "(general)".toList) ||
  (let rn := name.reverse
   leadsList "(general)".toList.reverse rn &&
     (match rn.drop 9 with
      | c :: _ => isSpaceChar c
      | [] => false)) ||
  matchQualNoun "dietary" "intervention" name ||
  matchQualNoun "dietary" "interventions" name ||
  matchQualNoun "nutritional" "intervention" name ||
  matchQualNoun "nutritional" "interventions" name

/-- Metabolic condition keywords (line 308). -/
def metabolicCondTerms : List String :=
  ["diabetes", "insulin", "glucose", "metabolic", "blood sugar",
   "hyperglycemia", "hypoglycemia"]

/-- Neurological condition keywords (line 309). -/
def neuroCondTerms : List String :=
  ["concussion", "brain", "neurological", "cognitive", "neuro", "tbi",
   "traumatic brain"]

/-- `vagueMechanisms` (lines 405-412). -/
def vagueMechanisms : List String :=
  ["acts as a way", "helps with treatment", "is beneficial",
   "helps improve", "is good for", "can help"]

/-- `metabolicTerms` (line 418). -/
def metabolicTerms : List String :=
  ["insulin", "glucose", "blood sugar", "glycemic", "metabolic", "diabetes"]

/-- `neurologicalTerms` (line 419). -/
def neurologicalTerms : List String :=
  ["neuroinflammation", "neuroplasticity", "cognitive", "axonal",
   "brain injury", "concussion"]

/-- The `.filter` callback (lines 376-445): name-specificity,
mechanism-vagueness, and condition-domain relevance heuristics. -/
def filterRec (condition : String) (r : Rec) : Bool :=
  let conditionLower := lowerStr condition
  let isMetabolicCondition := metabolicCondTerms.any (fun t => containsStr conditionLower t)
  let isNeurologicalCondition := neuroCondTerms.any (fun t => containsStr conditionLower t)
  -- `rec.name?.toLowerCase().trim() || ''`
  let name : List Char :=
    match r.name with
    | some n => trimChars (lowerChars n.toList)
    | none => []
  if name.isEmpty then false
  else if singleGenericWords.any (fun w => name == w.toList) then false
  else if genericNameMatch name then false
  else
    -- `rec.mechanism?.toLowerCase() || ''`
    let mechanism := match r.mechanism with | some m => lowerStr m | none => ""
    if vagueMechanisms.any (fun v => containsStr mechanism v && mechanism.length < 50)
    then false
    else if isNeurologicalCondition && !isMetabolicCondition &&
      (metabolicTerms.any (fun t => containsStr mechanism t) &&
       !(neurologicalTerms.any (fun t => containsStr mechanism t)) &&
       !(containsStr mechanism conditionLower))
    then false
    else if isMetabolicCondition && !isNeurologicalCondition &&
      (neurologicalTerms.any (fun t => containsStr mechanism t) &&
       !(metabolicTerms.any (fun t => containsStr mechanism t)) &&
       !(containsStr mechanism "metabolic") &&
       !(containsStr mechanism conditionLower))
    then false
    else true

/-- Evidence reconciliation against the combined paper list (lines 446-458):
`paperUrl`/`doi` overwritten by `||`-fallback from the matching paper. -/
def reconcileEv (papers : List Paper) (ev : Evidence) : Evidence :=
  match papers.find? (fun p => p.id == ev.paperId || p.title == ev.paperTitle) with
  | some p =>
    { ev with
      paperUrl := if p.url = "" then ev.paperUrl else p.url
      doi :=
        match p.doi with
        | some d => if d = "" then ev.doi else some d
        | none => ev.doi }
  | none => ev

/-- Per-recommendation reconciliation map (lines 446-458). -/
def reconcileRec (papers : List Paper) (r : Rec) : Rec :=
  { r with evidence := r.evidence.map (reconcileEv papers) }

/-- The full validation chain over the parsed drafts (lines 311-458):
`.map(scrub+gate).filter(heuristics).map(reconcile)`. -/
def validateRecs (papers : List Paper) (condition : String) (recs : List Rec) :
    List Rec :=
  ((recs.map (fun r => gateRec (scrubRec r))).filter (filterRec condition)).map
    (reconcileRec papers)

/-! ## Simplification wiring inside `analyzeHealthPapers` (lines 460-514) -/

/-- `textsToSimplify` (lines 461-464). -/
def textsToSimplify (recs : List Rec) : List TextCtx :=
  recs.flatMap (fun r =>
    { text := r.summary, context := r.recType ++ " recommendation" } ::
    (match r.mechanism with
     | some m => [{ text := m, context := "biological mechanism" }]
     | none => []))

/-- JS `Map`-based glossary dedup (lines 495-498): keys in first-insertion
order, last value per key wins. -/
def dedupTerms (ts : List TechTerm) : List TechTerm :=
  let keys := (ts.map (fun t => lowerStr t.term)).eraseDups
  keys.filterMap (fun k => (ts.filter (fun t => lowerStr t.term == k)).getLast?)

/-- Per-recommendation assembly of the simplified fields (lines 483-514),
given the `SimplifiedText` slots for summary and mechanism. -/
def updateSimplified (r : Rec) (sSum sMech : Option SimplifiedText) : Rec :=
  let aiTerms :=
    (match sSum with | some st => st.technicalTerms | none => []) ++
    (match sMech with | some st => st.technicalTerms | none => [])
  let uniqueTerms := dedupTerms aiTerms
  { r with
    summarySimplified :=
      match sSum with
      | some st =>
        if st.simplified ≠ "" ∧ st.simplified ≠ r.summary then some st.simplified
        else none
      | none => none
    mechanismSimplified :=
      match r.mechanism, sMech with
      | some mech, some st =>
        if st.simplified ≠ "" ∧ st.simplified ≠ mech then some st.simplified
        else none
      | _, _ => none
    technicalTerms := if uniqueTerms.isEmpty then none else some uniqueTerms }

/-- The `simplifiedIndex` walk (lines 482-514): each recommendation consumes
the summary slot and, when a mechanism is present, the next slot too. -/
def attachSimplified : List Rec → List SimplifiedText → List Rec
  | [], _ => []
  | r :: rs, sts =>
    let sSum := sts.head?
    let rest1 := sts.tail
    let sMech := if r.mechanism.isSome then rest1.head? else none
    let rest2 := if r.mechanism.isSome then rest1.tail else rest1
    updateSimplified r sSum sMech :: attachSimplified rs rest2

/-! ## Response cleanup and the top-level function -/

/-- Left-to-right removal of every occurrence of `tok` followed by an
optional newline (the `/tok\n?/g → ''` replaces of line 303), with fuel for
structural termination; `l.length` fuel always suffices. -/
def stripTokNlAux (tok : List Char) : Nat → List Char → List Char
  | 0, l => l
  | _ + 1, [] => []
  | fuel + 1, c :: cs =>
    if leadsList tok (c :: cs) then
      match (c :: cs).drop tok.length with
      | '\n' :: r => stripTokNlAux tok fuel r
      | r => stripTokNlAux tok fuel r
    else c :: stripTokNlAux tok fuel cs

/-- Removal of every `tok` (plus optional trailing newline). -/
def stripTokNl (tok l : List Char) : List Char :=
  stripTokNlAux tok l.length l

/-- `responseText.replace(/```json\n?/g, '').replace(/```\n?/g, '').trim()`
(line 303). -/
def cleanResponse (s : String) : String :=
  String.mk (trimChars (stripTokNl "```".toList (stripTokNl "```json".toList s.toList)))

/-- `generateBudgetOptions` (lines 541-581), abstracted over the combined
model-call/parse outcome; the catch yields an empty list. -/
def generateBudgetOptions (outcome : Except String (List BudgetOption)) :
    List BudgetOption :=
  match outcome with
  | .ok l => l
  | .error _ => []

/-- Empty result returned on no papers (lines 117-123) and from the catch
block (lines 528-535). -/
def emptyAnalysis (condition : String) : HealthAnalysis :=
  { condition := condition, recommendations := [], mechanisms := [],
    budgetOptions := none }

/-- `analyzeHealthPapers` (lines 65-536), abstracted over: the JSON
parse of the cleaned model output (`parse`), the combined `allPapers` list,
the gateway outcome (`modelResp`), the simplifier batch outcome
(`simplOutcome`), and the budget-stage outcome (`budgetOutcome`).  A
failing model call or a failed parse lands in the catch block and yields
the empty analysis. -/
def analyzeHealthPapers (parse : String → Option ParsedAnalysis)
    (condition : String) (allPapers : List Paper)
    (modelResp : Except String String)
    (simplOutcome : Except String (List PartialST))
    (includeBudget : Bool)
    (budgetOutcome : Except String (List BudgetOption)) : HealthAnalysis :=
  if allPapers.isEmpty then emptyAnalysis condition
  else
    match modelResp with
    | .error _ => emptyAnalysis condition
    | .ok responseText =>
      match parse (cleanResponse responseText) with
      | none => emptyAnalysis condition
      | some analysis =>
        let recommendations := validateRecs allPapers condition analysis.recommendations
        let texts := textsToSimplify recommendations
        let simplifiedTexts :=
          if texts.isEmpty then [] else simplifyMultipleTexts texts simplOutcome
        { condition := condition
          recommendations := attachSimplified recommendations simplifiedTexts
          mechanisms := analysis.mechanisms
          budgetOptions :=
            if includeBudget then some (generateBudgetOptions budgetOutcome)
            else none }

/-! ## ConditionQuery derivation (`aiService.ts` 141-145, `route.ts` 19-23):
`condition.toLowerCase().split(/\s+(?:after|from|due to|caused by|following)\s+/i)` -/

/-- Connector words of the split regex, in alternation order. -/
def connectors : List String := ["after", "from", "due to", "caused by", "following"]

/-- Attempt to finish a separator match after the leading whitespace run:
try each connector word in order as a literal prefix, then require one or
more trailing whitespace characters; returns the remainder after the match. -/
def tryConnectors : List String → List Char → Option (List Char)
  | [], _ => none
  | w :: ws, r =>
    if leadsList w.toList r then
      let r2 := r.drop w.toList.length
      let sp := r2.takeWhile isSpaceChar
      if sp.isEmpty then tryConnectors ws r
      else some (r2.drop sp.length)
    else tryConnectors ws r

/-- Attempt to match the whole separator `\s+(?:connector)\s+` at the head
of the list; returns the remainder after the match. -/
def matchSep (l : List Char) : Option (List Char) :=
  let ws := l.takeWhile isSpaceChar
  if ws.isEmpty then none
  else tryConnectors connectors (l.drop ws.length)

/-- Leftmost separator match: returns the text before the match and the
remainder after it. -/
def findMatch : List Char → Option (List Char × List Char)
  | [] => none
  | c :: cs =>
    match matchSep (c :: cs) with
    | some rest => some ([], rest)
    | none => (findMatch cs).map (fun p => (c :: p.1, p.2))

/-- Repeated splitting on the separator, with fuel for structural
termination; each match strictly shrinks the remainder, so `l.length` fuel
always suffices. -/
def splitConnAux : Nat → List Char → List (List Char)
  | 0, l => [l]
  | fuel + 1, l =>
    match findMatch l with
    | none => [l]
    | some (b, a) => b :: splitConnAux fuel a

/-- JS `String.prototype.split` on the connector regex. -/
def splitConn (l : List Char) : List (List Char) :=
  splitConnAux l.length l

/-- The condition/cause derivation (`aiService.ts` 141-145 and `route.ts`
19-23): returns `(baseCondition, cause)`. -/
def parseCondition (condition : String) : String × Option String :=
  let conditionParts := splitConn (lowerChars condition.toList)
  if conditionParts.length > 1 then
    (String.mk (trimChars (conditionParts.headD [])),
     some (String.mk (trimChars
       (joinSep " ".toList (conditionParts.drop 1)))))
  else (condition, none)

/-! ## Spec-side predicates (stated from the specification's words, for the
chunk-grounding claim) -/

/-- Case-insensitive substring test used by the spec's grounding invariant. -/
def containsCI (hay needle : String) : Bool :=
  hasSubList (lowerChars hay.toList) (lowerChars needle.toList)

/-- Truth of "some evidence entry's exercise chunk contains `v`". -/
def someExChunkContains (r : Rec) (v : String) : Bool :=
  r.evidence.any (fun ev =>
    match ev.exerciseDetailsChunk with
    | some c => containsCI c v
    | none => false)

/-- Truth of "some evidence entry's dosage chunk contains `v`". -/
def someDoChunkContains (r : Rec) (v : String) : Bool :=
  r.evidence.any (fun ev =>
    match ev.dosageDetailsChunk with
    | some c => containsCI c v
    | none => false)

/-- Grounding of an optional field against a chunk predicate: absent fields
are vacuously grounded. -/
def fieldGrounded (o : Option String) (ok : String → Bool) : Bool :=
  match o with
  | some v => ok v
  | none => true

/-- Modelled from the spec: the chunk-grounding invariant of §8 — every
populated structured field has an evidence entry whose corresponding chunk
contains the field's value as a case-insensitive substring (each listed
exercise for `specificExercises`). -/
def specChunkGrounded (r : Rec) : Bool :=
  (match r.specificExercises with
   | some l => l.all (fun v => someExChunkContains r v)
   | none => true) &&
  fieldGrounded r.reps (someExChunkContains r) &&
  fieldGrounded r.sets (someExChunkContains r) &&
  fieldGrounded r.duration (someExChunkContains r) &&
  fieldGrounded r.frequency (someExChunkContains r) &&
  fieldGrounded r.dosage (someDoChunkContains r) &&
  fieldGrounded r.servingSize (someDoChunkContains r) &&
  fieldGrounded r.frequencyOfIntake (someDoChunkContains r)

/-- Presence of any exercise-side structured field. -/
def exerciseFieldsPresent (r : Rec) : Bool :=
  r.specificExercises.isSome || r.reps.isSome || r.sets.isSome ||
  r.duration.isSome || r.frequency.isSome

/-- Presence of any intake-side structured field. -/
def intakeFieldsPresent (r : Rec) : Bool :=
  r.dosage.isSome || r.servingSize.isSome || r.frequencyOfIntake.isSome

/-- Weakened grounding actually enforced by the validator: populated
structured fields are backed by the presence of a truthy corresponding
chunk on some evidence entry (not by substring containment). -/
def chunkPresence (r : Rec) : Prop :=
  (exerciseFieldsPresent r = true →
    r.evidence.any (fun ev => isTruthy ev.exerciseDetailsChunk) = true) ∧
  (intakeFieldsPresent r = true →
    r.evidence.any (fun ev => isTruthy ev.dosageDetailsChunk) = true)

/-! ## Concrete instances used by witnesses and counterexamples -/

/-- Rate-limit-classified error instance. -/
def rleErr : GroqError :=
  { message := some "rate limit", status := none, responseStatus := none,
    statusCode := none, code := none, responseDataErrorCode := none }

/-- Error instance classified as none of rate-limited, model-unavailable,
or billing-or-quota. -/
def badErr : GroqError :=
  { message := some "boom", status := none, responseStatus := none,
    statusCode := none, code := none, responseDataErrorCode := none }

/-- Oracle for the fallback-order witness: the primary `"p"` is
rate-limited, the first fallback succeeds. -/
def wCallOrder : String → Except GroqError String := fun m =>
  if m = "p" then .error rleErr
  else if m = "llama-3.3-70b-versatile" then .ok "hi"
  else .error badErr

/-- Oracle on which every model is rate-limited. -/
def wCallAllRL : String → Except GroqError String := fun _ => .error rleErr

/-- Oracle on which every model fails with an unclassified error. -/
def wCallBad : String → Except GroqError String := fun _ => .error badErr

/-- Evidence entry whose exercise chunk does not contain the
recommendation's `reps` value. -/
def cexEv : Evidence :=
  { paperTitle := "Paper One", paperUrl := "http://old", paperId := "p1",
    relevantSection := none, quote := none, doi := none,
    sectionForExercises := some "Methods",
    sectionForDosage := none,
    exerciseDetailsChunk := some "participants ran for thirty minutes daily",
    dosageDetailsChunk := none }

/-- Draft whose `reps` value appears in no evidence chunk. -/
def cexRec : Rec :=
  { recType := "activity", name := some "Running", category := "beneficial",
    mechanism := some "improves insulin sensitivity", mechanismSimplified := none,
    summary := "Running helps", summarySimplified := none, technicalTerms := none,
    specificExercises := none, reps := some "3 sets of 8-12 reps", sets := none,
    duration := none, frequency := none, dosage := none, servingSize := none,
    frequencyOfIntake := none, evidence := [cexEv] }

/-- Combined paper list with a single paper. -/
def cexPapers : List Paper :=
  [{ id := "p1", title := "Paper One", url := "http://u", doi := some "10.1/x" }]

/-- Parse oracle producing `cexRec`. -/
def cexParse : String → Option ParsedAnalysis := fun _ =>
  some { mechanisms := ["insulin resistance"], recommendations := [cexRec] }

/-- The analysis produced on the chunk-grounding counterexample input. -/
def cexOut : HealthAnalysis :=
  analyzeHealthPapers cexParse "diabetes" cexPapers (.ok "resp") (.error "fail")
    false (.error "nb")

/-- Head of the counterexample output's recommendation list. -/
def cexOutHead : Rec :=
  cexOut.recommendations.headD
    { recType := "", name := none, category := "", mechanism := none,
      mechanismSimplified := none, summary := "", summarySimplified := none,
      technicalTerms := none, specificExercises := none, reps := none,
      sets := none, duration := none, frequency := none, dosage := none,
      servingSize := none, frequencyOfIntake := none, evidence := [] }

/-- Minimal draft with the given name, used by the name-filter claim. -/
def mkNameRec (n : String) : Rec :=
  { recType := "activity", name := some n, category := "beneficial",
    mechanism := some "improves insulin sensitivity", mechanismSimplified := none,
    summary := "s", summarySimplified := none, technicalTerms := none,
    specificExercises := none, reps := none, sets := none,
    duration := none, frequency := none, dosage := none, servingSize := none,
    frequencyOfIntake := none, evidence := [] }

/-- Draft whose mechanism differs from its simplified text only in case. -/
def c6Rec : Rec :=
  { recType := "food", name := some "Salmon", category := "beneficial",
    mechanism := some "reduces neuroinflammation", mechanismSimplified := none,
    summary := "Salmon is good", summarySimplified := none, technicalTerms := none,
    specificExercises := none, reps := none, sets := none,
    duration := none, frequency := none, dosage := none, servingSize := none,
    frequencyOfIntake := none, evidence := [] }

/-- Parse oracle producing `c6Rec`. -/
def c6Parse : String → Option ParsedAnalysis := fun _ =>
  some { mechanisms := [], recommendations := [c6Rec] }

/-- Simplifier output whose mechanism entry differs from the original only
in letter case. -/
def c6Simpl : List PartialST :=
  [{ simplified := some "Salmon is good", technicalTerms := none },
   { simplified := some "Reduces Neuroinflammation", technicalTerms := none }]

/-- The analysis produced on the similarity-gate counterexample input. -/
def c6Out : HealthAnalysis :=
  analyzeHealthPapers c6Parse "concussion"
    [{ id := "q", title := "T", url := "u", doi := none }]
    (.ok "resp") (.ok c6Simpl) false (.error "nb")

/-- Draft with model-supplied exercise and intake fields but no chunks. -/
def c4Rec : Rec :=
  { recType := "activity", name := some "Running", category := "beneficial",
    mechanism := some "improves insulin sensitivity", mechanismSimplified := none,
    summary := "s", summarySimplified := none, technicalTerms := none,
    specificExercises := some ["Running"], reps := some "3 sets",
    sets := some "3", duration := some "30 minutes",
    frequency := some "3 times per week", dosage := some "200mg daily",
    servingSize := some "1 cup", frequencyOfIntake := some "daily",
    evidence :=
      [{ paperTitle := "T", paperUrl := "u", paperId := "i",
         relevantSection := none, quote := none, doi := none,
         sectionForExercises := some "Methods", sectionForDosage := some "Methods",
         exerciseDetailsChunk := none, dosageDetailsChunk := none }] }

/-- Draft whose dosage contains the letters "na" inside an ordinary word. -/
def c10Rec : Rec :=
  { recType := "food", name := some "Banana", category := "beneficial",
    mechanism := some "improves glucose metabolism", mechanismSimplified := none,
    summary := "s", summarySimplified := none, technicalTerms := none,
    specificExercises := none, reps := none, sets := none,
    duration := none, frequency := none, dosage := some "1 banana daily",
    servingSize := some "sodium bicarbonate 300mg", frequencyOfIntake := none,
    evidence := [] }

/-! ## Lemmas about the condition-query derivation -/

theorem takeWhile_len_le (p : Char → Bool) :
    ∀ l : List Char, (l.takeWhile p).length ≤ l.length := by
  intro l
  induction l with
  | nil => simp
  | cons x xs ih =>
    rw [List.takeWhile_cons]
    cases p x
    · simp
    · simp
      omega

theorem tryConnectors_length {rest : List Char} :
    ∀ {ws : List String} {r : List Char}, tryConnectors ws r = some rest →
      rest.length < r.length := by
  intro ws
  induction ws with
  | nil => intro r h; simp [tryConnectors] at h
  | cons w ws ih =>
    intro r h
    by_cases hp : leadsList w.toList r = true
    · simp only [tryConnectors, hp, if_pos] at h
      set r2 := r.drop w.toList.length with hr2
      set sp := r2.takeWhile isSpaceChar with hsp
      by_cases he : sp.isEmpty = true
      · rw [if_pos he] at h
        exact ih h
      · rw [if_neg he] at h
        have hrest : rest = r2.drop sp.length := by
          exact (Option.some.injEq _ _).mp h.symm
        have hsp1 : 1 ≤ sp.length := by
          cases hsz : sp with
          | nil => rw [hsz] at he; simp at he
          | cons a l => simp [hsz]
        have hsple : sp.length ≤ r2.length := by
          rw [hsp]; exact takeWhile_len_le _ r2
        have hr2pos : 0 < r2.length := lt_of_lt_of_le hsp1 hsple
        have h1 : rest.length = r2.length - sp.length := by
          rw [hrest, List.length_drop]
        have h2 : rest.length < r2.length := by omega
        have h3 : r2.length ≤ r.length := by
          rw [hr2, List.length_drop]; omega
        omega
    · have hp' : leadsList w.toList r = false := by
        simpa using hp
      simp only [tryConnectors, hp'] at h
      simp only [Bool.false_eq_true, if_false] at h
      exact ih h

theorem matchSep_length {l rest : List Char} (h : matchSep l = some rest) :
    rest.length < l.length := by
  unfold matchSep at h
  set ws := l.takeWhile isSpaceChar with hws
  by_cases he : ws.isEmpty = true
  · rw [if_pos he] at h; simp at h
  · rw [if_neg he] at h
    have h1 : rest.length < (l.drop ws.length).length := tryConnectors_length h
    have hws1 : 1 ≤ ws.length := by
      cases hsz : ws with
      | nil => rw [hsz] at he; simp at he
      | cons a t => simp [hsz]
    have hwsle : ws.length ≤ l.length := by
      rw [hws]; exact takeWhile_len_le _ l
    rw [List.length_drop] at h1
    omega

theorem findMatch_length :
    ∀ {l b a : List Char}, findMatch l = some (b, a) → a.length < l.length := by
  intro l
  induction l with
  | nil => intro b a h; simp [findMatch] at h
  | cons c cs ih =>
    intro b a h
    unfold findMatch at h
    cases hm : matchSep (c :: cs) with
    | some rest =>
      rw [hm] at h
      have := matchSep_length hm
      cases h; simpa using this
    | none =>
      rw [hm] at h
      cases hf : findMatch cs with
      | none => rw [hf] at h; simp at h
      | some p =>
        rw [hf] at h
        simp only [Option.map_some] at h
        cases h
        have := ih (b := p.1) (a := p.2) (by rw [hf])
        simp only [List.length_cons]
        omega

theorem findMatch_cons_not_space {c : Char} {cs b a : List Char}
    (hc : isSpaceChar c = false) (h : findMatch (c :: cs) = some (b, a)) :
    ∃ b', b = c :: b' := by
  have hm : matchSep (c :: cs) = none := by
    unfold matchSep
    have : (c :: cs).takeWhile isSpaceChar = [] := by
      simp [List.takeWhile_cons, hc]
    rw [this]
    simp
  unfold findMatch at h
  rw [hm] at h
  cases hf : findMatch cs with
  | none => rw [hf] at h; simp at h
  | some p =>
    rw [hf] at h
    simp only [Option.map_some] at h
    cases h
    exact ⟨p.1, rfl⟩

theorem splitConnAux_of_none {l : List Char} (h : findMatch l = none) :
    ∀ fuel, splitConnAux fuel l = [l] := by
  intro fuel
  cases fuel with
  | zero => rfl
  | succ n => simp [splitConnAux, h]

theorem findMatch_ne_nil {l : List Char} {p : List Char × List Char}
    (h : findMatch l = some p) : l ≠ [] := by
  intro he
  subst he
  simp [findMatch] at h

theorem splitConnAux_one_le (fuel : Nat) (l : List Char) :
    1 ≤ (splitConnAux fuel l).length := by
  cases fuel with
  | zero => simp [splitConnAux]
  | succ n =>
    unfold splitConnAux
    cases findMatch l with
    | none => simp
    | some p => simp

theorem splitConn_of_some {l b a : List Char} (h : findMatch l = some (b, a)) :
    ∃ t, splitConn l = b :: t ∧ 1 ≤ t.length := by
  unfold splitConn
  have hne : l ≠ [] := findMatch_ne_nil h
  cases hl : l.length with
  | zero => exact absurd (List.length_eq_zero.mp hl) hne
  | succ n =>
    refine ⟨splitConnAux n a, ?_, splitConnAux_one_le n a⟩
    simp [splitConnAux, h]

theorem dropWhile_ne_nil_of_mem {c : Char} {l : List Char} (hm : c ∈ l)
    (hc : isSpaceChar c = false) : l.dropWhile isSpaceChar ≠ [] := by
  induction l with
  | nil => simp at hm
  | cons x xs ih =>
    rw [List.dropWhile_cons]
    by_cases hx : isSpaceChar x = true
    · rw [if_pos hx]
      rcases List.mem_cons.mp hm with h | h
      · subst h; rw [hx] at hc; simp at hc
      · exact ih h
    · rw [if_neg hx]; simp

theorem toLower_not_space {c : Char} (h : isSpaceChar c = false) :
    isSpaceChar (Char.toLower c) = false := by
  by_cases hr : 65 ≤ c.toNat ∧ c.toNat ≤ 90
  · have hv : Nat.isValidChar (c.toNat + 32) := Or.inl (by omega)
    have ht : (Char.toLower c).toNat = c.toNat + 32 := by
      simp only [Char.toLower]
      rw [if_pos hr]
      unfold Char.ofNat
      rw [dif_pos hv]
      rfl
    have hsp : (' ' : Char).toNat = 32 := rfl
    have htb : ('\t' : Char).toNat = 9 := rfl
    have hcr : ('\r' : Char).toNat = 13 := rfl
    have hlf : ('\n' : Char).toNat = 10 := rfl
    simp only [isSpaceChar, Char.isWhitespace, Bool.or_eq_false_iff,
      decide_eq_false_iff_not]
    refine ⟨⟨⟨?_, ?_⟩, ?_⟩, ?_⟩ <;> intro heq <;> rw [heq] at ht
    · rw [hsp] at ht; omega
    · rw [htb] at ht; omega
    · rw [hcr] at ht; omega
    · rw [hlf] at ht; omega
  · simp only [Char.toLower]
    rw [if_neg hr]
    exact h

theorem string_mk_ne_empty {l : List Char} (h : l ≠ []) : String.mk l ≠ "" := by
  intro habs
  have h2 : l = [] := by
    have := congrArg String.data habs
    simpa using this
  exact h h2

theorem trimChars_cons_ne_nil {c : Char} {l : List Char}
    (hc : isSpaceChar c = false) : trimChars (c :: l) ≠ [] := by
  unfold trimChars
  rw [List.dropWhile_cons, if_neg (by simp [hc])]
  intro habs
  have h2 : (c :: l).reverse.dropWhile isSpaceChar = [] := by
    have := congrArg List.reverse habs
    simpa using this
  exact dropWhile_ne_nil_of_mem (by simp) hc h2

/-! ## Claim C7: the ConditionQuery invariant -/

/-- C7 (counterexample): the raw condition `" after x"` is non-empty, yet
the derived `baseCondition` is the empty string (the split on the leading
connector leaves an empty first part), refuting the claimed invariant that
`baseCondition` is non-empty for every non-empty raw condition. -/
theorem conditionQuery_nonempty_base_counterexample :
    (" after x" : String) ≠ "" ∧ parseCondition " after x" = ("", some "x") :=
  ⟨by decide, by decide⟩

/-- C7 (amended): for every raw condition string whose first character is
not whitespace, the derived `baseCondition` is non-empty, and the derived
`cause` is absent exactly when no connector separator occurs in the
lowercased string. -/
theorem conditionQuery_base_nonempty_of_head_not_space (raw : String) (c : Char)
    (cs : List Char) (hl : raw.toList = c :: cs) (hc : isSpaceChar c = false) :
    (parseCondition raw).1 ≠ "" ∧
    ((parseCondition raw).2 = none ↔ findMatch (lowerChars raw.toList) = none) := by
  have hraw : raw ≠ "" := by
    intro he
    rw [he] at hl
    simp at hl
  have hlow : lowerChars raw.toList = Char.toLower c :: lowerChars cs := by
    rw [hl]; rfl
  have hc' : isSpaceChar (Char.toLower c) = false := toLower_not_space hc
  unfold parseCondition
  cases hfm : findMatch (lowerChars raw.toList) with
  | none =>
    have hparts : splitConn (lowerChars raw.toList) = [lowerChars raw.toList] := by
      unfold splitConn
      exact splitConnAux_of_none hfm _
    rw [hparts]
    constructor
    · simpa using hraw
    · simp
  | some p =>
    obtain ⟨b, a⟩ := p
    have hfm' : findMatch (Char.toLower c :: lowerChars cs) = some (b, a) := by
      rw [← hlow]; exact hfm
    obtain ⟨b', hb⟩ := findMatch_cons_not_space hc' hfm'
    obtain ⟨t, hsc, hlen⟩ := splitConn_of_some hfm
    rw [hsc]
    have hgt : (b :: t).length > 1 := by
      simp only [List.length_cons]
      omega
    rw [if_pos hgt]
    constructor
    · simp only [List.headD_cons]
      subst hb
      exact string_mk_ne_empty (trimChars_cons_ne_nil hc')
    · simp

/-- C7 (witness): a concrete non-whitespace-initial condition for which the
amended invariant yields a non-empty base condition. -/
theorem conditionQuery_base_nonempty_witness :
    (parseCondition "a after x").1 ≠ "" :=
  (conditionQuery_base_nonempty_of_head_not_space "a after x" 'a'
    " after x".toList (by decide) (by decide)).1

/-! ## Lemmas about the Groq gateway loop -/

theorem modelsToTry_ne_nil (p : String) : modelsToTry p ≠ [] := by
  unfold modelsToTry
  exact List.cons_ne_nil _ _

theorem groqLoop_first_success (call : String → Except GroqError String)
    (out : String) :
    ∀ (ms : List String) (M : Nat) (rl : List String) (hM : M < ms.length),
      (∀ j (hj : j < M), ∃ e,
        call (ms.get ⟨j, Nat.lt_trans hj hM⟩) = .error e ∧ isRateLimit e = true) →
      call (ms.get ⟨M, hM⟩) = .ok out →
      groqLoop call rl ms = (ms.take (M + 1), .ok out) := by
  intro ms
  induction ms with
  | nil =>
    intro M rl hM
    exact absurd hM (Nat.not_lt_zero M)
  | cons m rest ih =>
    intro M rl hM hfail hok
    cases M with
    | zero =>
      have hcm : call m = .ok out := hok
      simp [groqLoop, hcm]
    | succ M' =>
      obtain ⟨e0, hce, hre⟩ := hfail 0 (Nat.succ_pos M')
      have hc : call m = .error e0 := hce
      have hM' : M' < rest.length := Nat.lt_of_succ_lt_succ hM
      have hre_empty : rest.isEmpty = false := by
        cases rest with
        | nil => exact absurd hM' (by simp)
        | cons _ _ => rfl
      have hih := ih M' (rl ++ [m]) hM'
        (fun j hj => hfail (j + 1) (Nat.succ_lt_succ hj)) hok
      simp [groqLoop, hc, hre, hre_empty, hih, List.take_succ_cons]

theorem groqLoop_all_rate_limited (call : String → Except GroqError String) :
    ∀ (ms rl : List String), ms ≠ [] →
      (∀ m ∈ ms, ∃ e, call m = .error e ∧ isRateLimit e = true) →
      groqLoop call rl ms = (ms, .error (.allRateLimited (rl ++ ms))) := by
  intro ms
  induction ms with
  | nil => intro rl h; exact absurd rfl h
  | cons m rest ih =>
    intro rl _ hall
    obtain ⟨e0, hc, hre⟩ := hall m (List.mem_cons_self m rest)
    by_cases hrest : rest = []
    · subst hrest
      simp [groqLoop, hc, hre]
    · have hre_empty : rest.isEmpty = false := by
        cases rest with
        | nil => exact absurd rfl hrest
        | cons _ _ => rfl
      have hih := ih (rl ++ [m]) hrest
        (fun m' hm' => hall m' (List.mem_cons_of_mem m hm'))
      simp [groqLoop, hc, hre, hre_empty, hih]

theorem strToList_append (a b : String) : (a ++ b).toList = a.toList ++ b.toList :=
  rfl

theorem leadsList_self_append (xs ys : List Char) :
    leadsList xs (xs ++ ys) = true := by
  induction xs with
  | nil => rfl
  | cons c cs ih => simp [leadsList, ih]

theorem hasSubList_here (n q : List Char) : hasSubList (n ++ q) n = true := by
  cases n with
  | nil =>
    cases q with
    | nil => rfl
    | cons c t => simp [hasSubList, leadsList]
  | cons c t =>
    simp only [List.cons_append, hasSubList, Bool.or_eq_true]
    exact Or.inl (leadsList_self_append (c :: t) q)

theorem hasSubList_append_left (u : List Char) {v n : List Char}
    (h : hasSubList v n = true) : hasSubList (u ++ v) n = true := by
  induction u with
  | nil => simpa using h
  | cons c cs ih => simp [hasSubList, ih]

theorem joinSep_cons₂ (sep a b : List Char) (l : List (List Char)) :
    joinSep sep (a :: b :: l) = a ++ sep ++ joinSep sep (b :: l) := rfl

theorem mem_joinSep_parts (sep : List Char) :
    ∀ (ms : List String) (m : String), m ∈ ms →
      ∃ p q, joinSep sep (ms.map String.toList) = p ++ (m.toList ++ q) := by
  intro ms
  induction ms with
  | nil => intro m hm; simp at hm
  | cons x xs ih =>
    intro m hm
    cases xs with
    | nil =>
      have hx : m = x := by simpa using hm
      subst hx
      exact ⟨[], [], by simp [joinSep]⟩
    | cons y ys =>
      rcases List.mem_cons.mp hm with h | h
      · subst h
        refine ⟨[], sep ++ joinSep sep ((y :: ys).map String.toList), ?_⟩
        simp [joinSep]
      · obtain ⟨p, q, hpq⟩ := ih m h
        refine ⟨x.toList ++ sep ++ p, q, ?_⟩
        rw [List.map_cons, List.map_cons, joinSep_cons₂, ← List.map_cons, hpq]
        simp [List.append_assoc]

theorem failureMessage_contains (ms : List String) (m : String) (hm : m ∈ ms) :
    containsStr (failureMessage (.allRateLimited ms)) m = true := by
  obtain ⟨p, q, hpq⟩ := mem_joinSep_parts ", ".toList ms m hm
  show hasSubList (failureMessage (.allRateLimited ms)).toList m.toList = true
  have hmsg : (failureMessage (.allRateLimited ms)).toList =
      "Rate limit reached for all Groq models (".toList ++
      (joinSep ", ".toList (ms.map String.toList) ++
        "). Please try again later.".toList) := by
    show (("Rate limit reached for all Groq models (" ++ joinComma ms ++
      "). Please try again later.") : String).toList = _
    rw [strToList_append, strToList_append]
    simp [joinComma]
  rw [hmsg, hpq, List.append_assoc, List.append_assoc]
  exact hasSubList_append_left _ (hasSubList_append_left _ (hasSubList_here _ _))

theorem groqLoop_attempts (call : String → Except GroqError String) :
    ∀ (ms rl : List String),
      (groqLoop call rl ms).1 =
        ms.take (ms.findIdx (fun m => (call m).isOk) + 1) := by
  intro ms
  induction ms with
  | nil => intro rl; simp [groqLoop]
  | cons m rest ih =>
    intro rl
    cases hc : call m with
    | ok s =>
      have hp : (call m).isOk = true := by rw [hc]; rfl
      simp [groqLoop, hc, List.findIdx_cons, hp, Except.isOk, Except.toBool]
    | error e =>
      have hp : (call m).isOk = false := by rw [hc]; rfl
      by_cases hrest : rest = []
      · subst hrest
        by_cases hre : isRateLimit e = true
        · simp [groqLoop, hc, hre, List.findIdx_cons, hp, Except.isOk, Except.toBool]
        · simp [groqLoop, hc, hre, List.findIdx_cons, hp, Except.isOk, Except.toBool]
      · have hre_empty : rest.isEmpty = false := by
          cases rest with
          | nil => exact absurd rfl hrest
          | cons _ _ => rfl
        by_cases hre : isRateLimit e = true
        · simp [groqLoop, hc, hre, hre_empty, List.findIdx_cons, hp, ih,
            List.take_succ_cons, Except.isOk, Except.toBool]
        · by_cases hmq : (isModelError e || isQuotaError e) = true
          · simp [groqLoop, hc, hre, hre_empty, hmq, List.findIdx_cons, hp, ih,
              List.take_succ_cons, Except.isOk, Except.toBool]
          · simp [groqLoop, hc, hre, hre_empty, hmq, List.findIdx_cons, hp, ih,
              List.take_succ_cons, Except.isOk, Except.toBool]

theorem groqLoop_error_all_attempted (call : String → Except GroqError String) :
    ∀ (ms rl : List String) (f : GroqFailure),
      (groqLoop call rl ms).2 = .error f → (groqLoop call rl ms).1 = ms := by
  intro ms
  induction ms with
  | nil => intro rl f _; simp [groqLoop]
  | cons m rest ih =>
    intro rl f hf
    cases hc : call m with
    | ok s => simp [groqLoop, hc] at hf
    | error e =>
      by_cases hrest : rest = []
      · subst hrest
        by_cases hre : isRateLimit e = true
        · simp [groqLoop, hc, hre]
        · simp [groqLoop, hc, hre]
      · have hre_empty : rest.isEmpty = false := by
          cases rest with
          | nil => exact absurd rfl hrest
          | cons _ _ => rfl
        by_cases hre : isRateLimit e = true
        · simp only [groqLoop, hc, hre, hre_empty] at hf ⊢
          simp at hf ⊢
          exact ih (rl ++ [m]) f hf
        · by_cases hmq : (isModelError e || isQuotaError e) = true
          · simp only [groqLoop, hc, hre, hre_empty, hmq] at hf ⊢
            simp at hf ⊢
            exact ih rl f hf
          · simp only [groqLoop, hc, hre, hre_empty, hmq] at hf ⊢
            simp at hf ⊢
            exact ih rl f hf

theorem groqLoop_last_original (call : String → Except GroqError String) :
    ∀ (ms rl : List String) (e : GroqError) (hne : ms ≠ []),
      (∀ m ∈ ms, ∃ e', call m = .error e') →
      call (ms.getLast hne) = .error e → isRateLimit e = false →
      (groqLoop call rl ms).2 = .error (.original e) := by
  intro ms
  induction ms with
  | nil => intro rl e hne; exact absurd rfl hne
  | cons m rest ih =>
    intro rl e hne hall hlast hre
    by_cases hrest : rest = []
    · subst hrest
      have hlm : call m = .error e := hlast
      simp [groqLoop, hlm, hre]
    · obtain ⟨e0, hc0⟩ := hall m (List.mem_cons_self m rest)
      have hre_empty : rest.isEmpty = false := by
        cases rest with
        | nil => exact absurd rfl hrest
        | cons _ _ => rfl
      have hlast' : call (rest.getLast hrest) = .error e := by
        rw [← List.getLast_cons hrest]
        exact hlast
      have hall' : ∀ m' ∈ rest, ∃ e', call m' = .error e' :=
        fun m' hm' => hall m' (List.mem_cons_of_mem m hm')
      by_cases hre0 : isRateLimit e0 = true
      · simp [groqLoop, hc0, hre0, hre_empty,
          ih (rl ++ [m]) e hrest hall' hlast' hre]
      · by_cases hmq : (isModelError e0 || isQuotaError e0) = true
        · simp [groqLoop, hc0, hre0, hre_empty, hmq,
            ih rl e hrest hall' hlast' hre]
        · simp [groqLoop, hc0, hre0, hre_empty, hmq,
            ih rl e hrest hall' hlast' hre]

/-! ## Claims C2, C3, C8: the Groq gateway -/

/-- C2: over the ordered candidate list (primary followed by the fixed
fallbacks with the primary removed), if the first `M` candidates fail with
rate-limit-classified errors and candidate `M+1` succeeds, then
`generateWithGroq` attempts exactly the first `M+1` candidates in declared
order and returns candidate `M+1`'s output; nothing is tried after the
first success. -/
theorem groq_fallback_order (primary : String)
    (call : String → Except GroqError String) (M : Nat) (out : String)
    (hM : M < (modelsToTry primary).length)
    (hfail : ∀ j (hj : j < M), ∃ e,
      call ((modelsToTry primary).get ⟨j, Nat.lt_trans hj hM⟩) = .error e ∧
      isRateLimit e = true)
    (hok : call ((modelsToTry primary).get ⟨M, hM⟩) = .ok out) :
    generateWithGroq primary call = ((modelsToTry primary).take (M + 1), .ok out) :=
  groqLoop_first_success call out (modelsToTry primary) M [] hM hfail hok

/-- C2 (witness): with the primary rate-limited and the first fallback
succeeding, exactly the first two candidates are attempted. -/
theorem groq_fallback_order_witness :
    generateWithGroq "p" wCallOrder = ((modelsToTry "p").take 2, .ok "hi") := by
  have h := groq_fallback_order "p" wCallOrder 1 "hi" (by decide)
    (fun j hj => by
      have hj0 : j = 0 := by omega
      subst hj0
      exact ⟨rleErr, rfl, by decide⟩)
    rfl
  exact h

/-- C3: if every candidate model fails with a rate-limit-classified error,
`generateWithGroq` fails with the distinguished all-rate-limited error that
lists the full candidate list, and the error's message contains every
exhausted candidate model's name. -/
theorem groq_all_rate_limited (primary : String)
    (call : String → Except GroqError String)
    (hall : ∀ m ∈ modelsToTry primary,
      ∃ e, call m = .error e ∧ isRateLimit e = true) :
    (generateWithGroq primary call).2 =
      .error (.allRateLimited (modelsToTry primary)) ∧
    ∀ m ∈ modelsToTry primary,
      containsStr (failureMessage (.allRateLimited (modelsToTry primary))) m
        = true := by
  constructor
  · have h := groqLoop_all_rate_limited call (modelsToTry primary) []
      (modelsToTry_ne_nil primary) hall
    unfold generateWithGroq
    rw [h]
    simp
  · exact fun m hm => failureMessage_contains _ m hm

/-- C3 (witness): a concrete oracle on which every candidate is
rate-limited, with the distinguished error listing all candidates and its
message containing the last fallback's name. -/
theorem groq_all_rate_limited_witness :
    (generateWithGroq "p" wCallAllRL).2 =
      .error (.allRateLimited (modelsToTry "p")) ∧
    containsStr (failureMessage (.allRateLimited (modelsToTry "p")))
      "llama-3.1-8b-instant" = true := by
  have h := groq_all_rate_limited "p" wCallAllRL
    (fun m _ => ⟨rleErr, rfl, by decide⟩)
  exact ⟨h.1, h.2 "llama-3.1-8b-instant" (by decide)⟩

/-- C8: every failing candidate advances to the next one regardless of
error class — the attempted prefix always runs through the first success
(or the whole list); an error outcome occurs only after every candidate was
attempted; and when all candidates fail and the last failure is not
rate-limit-classified, the last candidate's original error object is the
outcome, unchanged. -/
theorem groq_error_advance (primary : String)
    (call : String → Except GroqError String) :
    (generateWithGroq primary call).1 =
      (modelsToTry primary).take
        ((modelsToTry primary).findIdx (fun m => (call m).isOk) + 1) ∧
    (∀ f, (generateWithGroq primary call).2 = .error f →
      (generateWithGroq primary call).1 = modelsToTry primary) ∧
    (∀ e, (∀ m ∈ modelsToTry primary, ∃ e', call m = .error e') →
      call ((modelsToTry primary).getLast (modelsToTry_ne_nil primary))
        = .error e →
      isRateLimit e = false →
      (generateWithGroq primary call).2 = .error (.original e)) := by
  refine ⟨groqLoop_attempts call (modelsToTry primary) [], ?_, ?_⟩
  · exact fun f hf => groqLoop_error_all_attempted call (modelsToTry primary) [] f hf
  · exact fun e hall hlast hre =>
      groqLoop_last_original call (modelsToTry primary) [] e
        (modelsToTry_ne_nil primary) hall hlast hre

/-- C8 (witness): with every candidate failing on an unclassified error,
all candidates are attempted and the last candidate's original error object
is surfaced unchanged. -/
theorem groq_error_advance_witness :
    (generateWithGroq "p" wCallBad).1 = modelsToTry "p" ∧
    (generateWithGroq "p" wCallBad).2 = .error (.original badErr) := by
  have h := groq_error_advance "p" wCallBad
  have h2 := h.2.2 badErr (fun m _ => ⟨badErr, rfl⟩) rfl (by decide)
  exact ⟨h.2.1 (.original badErr) h2, h2⟩

/-! ## Claim C9: the name-specificity filter -/

/-- C9: the validator's filter drops a draft named "Exercise", keeps
"Running", drops "Submaximal Exercise", and keeps "Bench Press" (the other
heuristics accepting the surrounding draft). -/
theorem name_specificity_filter :
    filterRec "diabetes" (mkNameRec "Exercise") = false ∧
    filterRec "diabetes" (mkNameRec "Running") = true ∧
    filterRec "diabetes" (mkNameRec "Submaximal Exercise") = false ∧
    filterRec "diabetes" (mkNameRec "Bench Press") = true :=
  ⟨by decide, by decide, by decide, by decide⟩

/-! ## Claim C10: over-matching of the placeholder patterns -/

/-- C10: the `/na/i` entry of `notSpecifiedPatterns` makes the placeholder
scrub delete any of the seven structured fields whose value contains the
letters "na" anywhere, case-insensitively — not only genuine placeholder
values. -/
theorem na_substring_scrubbed (r : Rec) (v : String)
    (h : containsStr (lowerStr v) "na" = true) :
    (r.dosage = some v → (scrubRec r).dosage = none) ∧
    (r.servingSize = some v → (scrubRec r).servingSize = none) ∧
    (r.frequencyOfIntake = some v → (scrubRec r).frequencyOfIntake = none) ∧
    (r.reps = some v → (scrubRec r).reps = none) ∧
    (r.sets = some v → (scrubRec r).sets = none) ∧
    (r.duration = some v → (scrubRec r).duration = none) ∧
    (r.frequency = some v → (scrubRec r).frequency = none) := by
  have hv : v ≠ "" := by
    intro he
    rw [he] at h
    exact absurd h (by decide)
  have hmp : matchesPlaceholder v = true := by
    unfold matchesPlaceholder
    apply List.any_eq_true.mpr
    exact ⟨"na", by decide, h⟩
  have hsf : scrubField (some v) = none := by
    show (if v ≠ "" ∧ matchesPlaceholder v = true then none else some v) = none
    rw [if_pos ⟨hv, hmp⟩]
  refine ⟨?_, ?_, ?_, ?_, ?_, ?_, ?_⟩ <;>
    · intro hf
      simp [scrubRec, hf, hsf]

/-- C10 (witness): the dosage "1 banana daily" and the serving size
"sodium bicarbonate 300mg" are both deleted by the scrub. -/
theorem na_substring_scrubbed_witness :
    containsStr (lowerStr "1 banana daily") "na" = true ∧
    (scrubRec c10Rec).dosage = none ∧
    (scrubRec c10Rec).servingSize = none := by
  refine ⟨by decide, ?_, ?_⟩
  · exact (na_substring_scrubbed c10Rec "1 banana daily" (by decide)).1 rfl
  · exact (na_substring_scrubbed c10Rec "sodium bicarbonate 300mg"
      (by decide)).2.1 rfl

/-! ## Claim C5: extraction-stage failure yields an empty result -/

/-- C5: when the gateway call fails, or the model output does not parse,
`analyzeHealthPapers` returns the well-formed empty analysis for the same
condition (no exception propagates and the single model call is not
retried). -/
theorem extraction_failure_empty (parse : String → Option ParsedAnalysis)
    (cond : String) (papers : List Paper) (mr : Except String String)
    (sr : Except String (List PartialST)) (ib : Bool)
    (bo : Except String (List BudgetOption))
    (h : (∃ msg, mr = .error msg) ∨
      ∀ t, mr = .ok t → parse (cleanResponse t) = none) :
    analyzeHealthPapers parse cond papers mr sr ib bo = emptyAnalysis cond := by
  unfold analyzeHealthPapers
  by_cases hp : papers.isEmpty = true
  · rw [if_pos hp]
  · rw [if_neg hp]
    cases mr with
    | error msg => rfl
    | ok t =>
      rcases h with ⟨m, hm⟩ | hpar
      · exact absurd hm (by simp)
      · simp [hpar t rfl]

/-- C5 (witness): a failing model call yields the empty analysis on a
non-empty paper list. -/
theorem extraction_failure_empty_witness :
    analyzeHealthPapers cexParse "diabetes" cexPapers (.error "boom")
      (.error "s") false (.error "b") = emptyAnalysis "diabetes" :=
  extraction_failure_empty cexParse "diabetes" cexPapers (.error "boom")
    (.error "s") false (.error "b") (Or.inl ⟨"boom", rfl⟩)

/-! ## Claim C4: chunk-gating -/

/-- C4: if no evidence item carries a truthy `exerciseDetailsChunk`, the
gate removes all five exercise fields and both exercise sub-fields from
every evidence item; symmetrically, if no evidence item carries a truthy
`dosageDetailsChunk`, the gate removes all three intake fields and both
dosage sub-fields from every evidence item — regardless of the
model-supplied values. -/
theorem chunk_gating (r : Rec) :
    (r.evidence.any (fun ev => isTruthy ev.exerciseDetailsChunk) = false →
      (gateRec r).specificExercises = none ∧ (gateRec r).reps = none ∧
      (gateRec r).sets = none ∧ (gateRec r).duration = none ∧
      (gateRec r).frequency = none ∧
      ∀ ev ∈ (gateRec r).evidence,
        ev.sectionForExercises = none ∧ ev.exerciseDetailsChunk = none) ∧
    (r.evidence.any (fun ev => isTruthy ev.dosageDetailsChunk) = false →
      (gateRec r).dosage = none ∧ (gateRec r).servingSize = none ∧
      (gateRec r).frequencyOfIntake = none ∧
      ∀ ev ∈ (gateRec r).evidence,
        ev.sectionForDosage = none ∧ ev.dosageDetailsChunk = none) := by
  have hmap : ∀ l : List Evidence,
      (l.map clearExerciseEv).any (fun ev => isTruthy ev.dosageDetailsChunk) =
      l.any (fun ev => isTruthy ev.dosageDetailsChunk) := by
    intro l
    rw [List.any_map]
    rfl
  constructor
  · intro hA
    by_cases hD : (r.evidence.map clearExerciseEv).any
        (fun ev => isTruthy ev.dosageDetailsChunk) = true
    · simp only [gateRec, hA, Bool.false_eq_true, if_false, hD, if_true]
      refine ⟨trivial, trivial, trivial, trivial, trivial, ?_⟩
      intro ev hev
      obtain ⟨x, hx, rfl⟩ := List.mem_map.mp hev
      exact ⟨rfl, rfl⟩
    · have hD' : (r.evidence.map clearExerciseEv).any
          (fun ev => isTruthy ev.dosageDetailsChunk) = false := by
        simpa using hD
      simp only [gateRec, hA, Bool.false_eq_true, if_false, hD', if_true]
      refine ⟨trivial, trivial, trivial, trivial, trivial, ?_⟩
      intro ev hev
      obtain ⟨x, hx, rfl⟩ := List.mem_map.mp hev
      obtain ⟨y, hy, rfl⟩ := List.mem_map.mp hx
      exact ⟨rfl, rfl⟩
  · intro hB
    by_cases hA : r.evidence.any (fun ev => isTruthy ev.exerciseDetailsChunk) = true
    · simp only [gateRec, hA, if_true, hB, Bool.false_eq_true, if_false]
      refine ⟨trivial, trivial, trivial, ?_⟩
      intro ev hev
      obtain ⟨x, hx, rfl⟩ := List.mem_map.mp hev
      exact ⟨rfl, rfl⟩
    · have hA' : r.evidence.any (fun ev => isTruthy ev.exerciseDetailsChunk)
          = false := by
        simpa using hA
      have hB' : (r.evidence.map clearExerciseEv).any
          (fun ev => isTruthy ev.dosageDetailsChunk) = false := by
        rw [hmap]
        exact hB
      simp only [gateRec, hA', Bool.false_eq_true, if_false, hB']
      refine ⟨trivial, trivial, trivial, ?_⟩
      intro ev hev
      obtain ⟨x, hx, rfl⟩ := List.mem_map.mp hev
      obtain ⟨y, hy, rfl⟩ := List.mem_map.mp hx
      exact ⟨rfl, rfl⟩

/-- C4 (witness): a draft carrying every model-supplied field but no truthy
chunks loses its exercise and intake fields. -/
theorem chunk_gating_witness :
    c4Rec.evidence.any (fun ev => isTruthy ev.exerciseDetailsChunk) = false ∧
    (gateRec c4Rec).reps = none ∧ (gateRec c4Rec).dosage = none := by
  have h := chunk_gating c4Rec
  exact ⟨by decide, (h.1 (by decide)).2.1, (h.2 (by decide)).1⟩

/-! ## Claim C6: the similarity gate -/

/-- C6 (counterexample): a simplified mechanism differing from the original
only in letter case is accepted into the final analysis (the pipeline's
gate is plain string inequality), even though it is case-insensitively
identical to the original; and two strings differing only in whitespace
have similarity 3/4 < 0.9, refuting "similarity exceeds 0.9" for
whitespace-only differences. -/
theorem similarity_gate_counterexample :
    c6Out.recommendations.map (fun r => r.mechanismSimplified)
      = [some "Reduces Neuroinflammation"] ∧
    lowerTrim "Reduces Neuroinflammation" = lowerTrim "reduces neuroinflammation" ∧
    isActuallySimplified "reduces neuroinflammation" "Reduces Neuroinflammation"
      = false ∧
    calculateSimilarity "a b" "a  b" < 9 / 10 := by
  refine ⟨by decide, by decide, by decide, ?_⟩
  have h : levenshteinDistance "a  b".data "a b".data = 1 := by decide
  have l1 : ("a b" : String).length = 3 := rfl
  have l2 : ("a  b" : String).length = 4 := rfl
  simp only [calculateSimilarity, l1, l2]
  norm_num [h, l2]

/-- C6 (amended): the final result accepts a simplified mechanism exactly
when it is non-empty and differs from the original under strict string
equality — so texts differing only in case or whitespace are accepted —
while the similarity-based check lives in the unused helper
`isActuallySimplified`, which does reject texts identical after lowercasing
and trimming. -/
theorem similarity_gate_amended (r : Rec) (mech simp' : String)
    (sSum : Option SimplifiedText) (ts : List TechTerm)
    (hm : r.mechanism = some mech) (hne : simp' ≠ "") (hneq : simp' ≠ mech) :
    (updateSimplified r sSum
      (some { original := mech, simplified := simp', technicalTerms := ts
        })).mechanismSimplified = some simp' ∧
    (lowerTrim simp' = lowerTrim mech → isActuallySimplified mech simp' = false) := by
  constructor
  · simp [updateSimplified, hm, hne, hneq]
  · intro hci
    simp [isActuallySimplified, hci]

/-- C6 (witness): the case-only variant of a mechanism is accepted by the
assembly step while the unused helper classifies it as not simplified. -/
theorem similarity_gate_amended_witness :
    (updateSimplified c6Rec
      (some ⟨"Salmon is good", "Salmon is good", []⟩)
      (some ⟨"reduces neuroinflammation", "Reduces Neuroinflammation",
        []⟩)).mechanismSimplified
      = some "Reduces Neuroinflammation" ∧
    isActuallySimplified "reduces neuroinflammation" "Reduces Neuroinflammation"
      = false := by
  have h := similarity_gate_amended c6Rec "reduces neuroinflammation"
    "Reduces Neuroinflammation"
    (some ⟨"Salmon is good", "Salmon is good", []⟩)
    [] rfl (by decide) (by decide)
  exact ⟨h.1, h.2 (by decide)⟩

/-! ## Claim C1: chunk-grounding of the returned recommendations -/

theorem any_ex_map_clearDo (l : List Evidence) :
    (l.map clearDosageEv).any (fun ev => isTruthy ev.exerciseDetailsChunk) =
    l.any (fun ev => isTruthy ev.exerciseDetailsChunk) := by
  rw [List.any_map]
  rfl

theorem any_do_map_clearEx (l : List Evidence) :
    (l.map clearExerciseEv).any (fun ev => isTruthy ev.dosageDetailsChunk) =
    l.any (fun ev => isTruthy ev.dosageDetailsChunk) := by
  rw [List.any_map]
  rfl

theorem gateRec_presence (r : Rec) : chunkPresence (gateRec r) := by
  unfold chunkPresence
  by_cases hA : r.evidence.any (fun ev => isTruthy ev.exerciseDetailsChunk) = true
  · by_cases hD : r.evidence.any (fun ev => isTruthy ev.dosageDetailsChunk) = true
    · simp only [gateRec, hA, if_true, hD]
      exact ⟨fun _ => trivial, fun _ => trivial⟩
    · have hD' : r.evidence.any (fun ev => isTruthy ev.dosageDetailsChunk)
          = false := by simpa using hD
      simp only [gateRec, hA, if_true, hD', Bool.false_eq_true, if_false]
      constructor
      · intro _
        rw [any_ex_map_clearDo]
        exact hA
      · intro hin
        exact absurd hin (by simp [intakeFieldsPresent])
  · have hA' : r.evidence.any (fun ev => isTruthy ev.exerciseDetailsChunk)
        = false := by simpa using hA
    by_cases hD : (r.evidence.map clearExerciseEv).any
        (fun ev => isTruthy ev.dosageDetailsChunk) = true
    · simp only [gateRec, hA', Bool.false_eq_true, if_false, hD, if_true]
      constructor
      · intro hex
        exact absurd hex (by simp [exerciseFieldsPresent])
      · intro _
        exact trivial
    · have hD' : (r.evidence.map clearExerciseEv).any
          (fun ev => isTruthy ev.dosageDetailsChunk) = false := by
        simpa using hD
      simp only [gateRec, hA', Bool.false_eq_true, if_false, hD']
      constructor
      · intro hex
        exact absurd hex (by simp [exerciseFieldsPresent])
      · intro hin
        exact absurd hin (by simp [intakeFieldsPresent])

theorem reconcileEv_chunks (ps : List Paper) (ev : Evidence) :
    (reconcileEv ps ev).exerciseDetailsChunk = ev.exerciseDetailsChunk ∧
    (reconcileEv ps ev).dosageDetailsChunk = ev.dosageDetailsChunk := by
  unfold reconcileEv
  cases ps.find? (fun p => p.id == ev.paperId || p.title == ev.paperTitle) with
  | none => exact ⟨rfl, rfl⟩
  | some p => exact ⟨rfl, rfl⟩

theorem reconcileRec_presence (ps : List Paper) (r : Rec)
    (h : chunkPresence r) : chunkPresence (reconcileRec ps r) := by
  constructor
  · intro hex
    have h1 := h.1 hex
    show (r.evidence.map (reconcileEv ps)).any
      (fun ev => isTruthy ev.exerciseDetailsChunk) = true
    rw [List.any_map]
    apply List.any_eq_true.mpr
    obtain ⟨ev, hmem, hp⟩ := List.any_eq_true.mp h1
    refine ⟨ev, hmem, ?_⟩
    simpa [Function.comp, (reconcileEv_chunks ps ev).1] using hp
  · intro hin
    have h1 := h.2 hin
    show (r.evidence.map (reconcileEv ps)).any
      (fun ev => isTruthy ev.dosageDetailsChunk) = true
    rw [List.any_map]
    apply List.any_eq_true.mpr
    obtain ⟨ev, hmem, hp⟩ := List.any_eq_true.mp h1
    refine ⟨ev, hmem, ?_⟩
    simpa [Function.comp, (reconcileEv_chunks ps ev).2] using hp

theorem mem_attachSimplified :
    ∀ (rs : List Rec) (sts : List SimplifiedText) (r' : Rec),
      r' ∈ attachSimplified rs sts →
      ∃ r ∈ rs, ∃ a b, r' = updateSimplified r a b := by
  intro rs
  induction rs with
  | nil =>
    intro sts r' h
    simp [attachSimplified] at h
  | cons r rs ih =>
    intro sts r' h
    simp only [attachSimplified] at h
    rcases List.mem_cons.mp h with h | h
    · exact ⟨r, List.mem_cons_self r rs, _, _, h⟩
    · obtain ⟨r0, hr0, a, b, hab⟩ := ih _ r' h
      exact ⟨r0, List.mem_cons_of_mem r hr0, a, b, hab⟩

theorem analyzeHealthPapers_recs (parse : String → Option ParsedAnalysis)
    (cond : String) (papers : List Paper) (mr : Except String String)
    (sr : Except String (List PartialST)) (ib : Bool)
    (bo : Except String (List BudgetOption)) :
    (analyzeHealthPapers parse cond papers mr sr ib bo).recommendations = [] ∨
    ∃ recs sts,
      (analyzeHealthPapers parse cond papers mr sr ib bo).recommendations =
        attachSimplified (validateRecs papers cond recs) sts := by
  unfold analyzeHealthPapers
  split
  · left; rfl
  · split
    · left; rfl
    · split
      · left; rfl
      · right
        exact ⟨_, _, rfl⟩

/-- C1 (amended): every recommendation returned by `analyzeHealthPapers`
with a populated exercise-side structured field has an evidence entry
carrying a truthy `exerciseDetailsChunk`, and symmetrically on the intake
side with `dosageDetailsChunk`; the pipeline enforces chunk presence, not
substring containment of the field value. -/
theorem chunk_grounding_presence (parse : String → Option ParsedAnalysis)
    (cond : String) (papers : List Paper) (mr : Except String String)
    (sr : Except String (List PartialST)) (ib : Bool)
    (bo : Except String (List BudgetOption)) (r : Rec)
    (hr : r ∈ (analyzeHealthPapers parse cond papers mr sr ib bo).recommendations) :
    (exerciseFieldsPresent r = true →
      r.evidence.any (fun ev => isTruthy ev.exerciseDetailsChunk) = true) ∧
    (intakeFieldsPresent r = true →
      r.evidence.any (fun ev => isTruthy ev.dosageDetailsChunk) = true) := by
  rcases analyzeHealthPapers_recs parse cond papers mr sr ib bo with h | ⟨recs, sts, h⟩
  · rw [h] at hr
    simp at hr
  · rw [h] at hr
    obtain ⟨r1, hr1, a, b, rfl⟩ := mem_attachSimplified _ _ _ hr
    unfold validateRecs at hr1
    obtain ⟨r2, hr2, hre⟩ := List.mem_map.mp hr1
    have hr3 := List.mem_of_mem_filter hr2
    obtain ⟨r4, _, hge⟩ := List.mem_map.mp hr3
    have h1 : chunkPresence r2 := by
      rw [← hge]
      exact gateRec_presence (scrubRec r4)
    have h2 : chunkPresence r1 := by
      rw [← hre]
      exact reconcileRec_presence papers r2 h1
    exact h2

/-- C1 (witness): the concrete returned recommendation with a populated
`reps` field carries a truthy exercise chunk on its evidence. -/
theorem chunk_grounding_presence_witness :
    cexOutHead.evidence.any (fun ev => isTruthy ev.exerciseDetailsChunk) = true :=
  (chunk_grounding_presence cexParse "diabetes" cexPapers (.ok "resp")
    (.error "fail") false (.error "nb") cexOutHead (by decide)).1 (by decide)

/-- C1 (counterexample): the returned recommendation keeps `reps =
"3 sets of 8-12 reps"` although no evidence chunk contains that value as a
case-insensitive substring, refuting the claimed substring-containment
invariant on `analyzeHealthPapers`'s output. -/
theorem chunk_grounding_substring_counterexample :
    cexOut.recommendations.map (fun r => r.reps) = [some "3 sets of 8-12 reps"] ∧
    cexOut.recommendations.all specChunkGrounded = false :=
  ⟨by decide, by decide⟩
end HealthRef
